import Mathlib

/-!
Verification development for the GitHub user-insights service.

The definitions below are shallow embeddings of the JavaScript source:
`services/ai-processor.js` (the `AIProcessor` class: enrichment queue,
retry loop, response parser) and the `GitHubScraper` class (search fan-out,
profile batching, numeric field extraction).  JavaScript strings are
modelled as `String` / `List Char`; the event-loop behaviour of the
enrichment queue is modelled as an explicit labelled transition system;
external collaborators (the HTTP client, the cheerio extraction of
unstructured markup, and the built-in `JSON.parse`) are parameters of the
embedded functions, since they are not code of this repository.
-/

/-! ### Character-level models of the JavaScript string operations used by the source -/

/-- Model of `String.prototype.split(sep)` for a one-character separator:
`"a:b".split(':') = ["a","b"]`, `"".split(':') = [""]`. -/
def splitOnChar (sep : Char) : List Char → List (List Char)
  | [] => [[]]
  | c :: cs =>
    let r := splitOnChar sep cs
    if c = sep then [] :: r
    else
      match r with
      | h :: t => (c :: h) :: t
      | [] => [[c]]

/-- The whitespace characters removed by `String.prototype.trim` (the ones
occurring in this code base's data). -/
def isJsWs (c : Char) : Bool :=
  c == ' ' || c == '\t' || c == '\n' || c == '\r'

/-- Model of `String.prototype.trim`: drop whitespace at both ends. -/
def trimChars (cs : List Char) : List Char :=
  ((cs.dropWhile isJsWs).reverse.dropWhile isJsWs).reverse

/-- Model of `String.prototype.includes(pat)`: substring containment. -/
def containsSeq (hay pat : List Char) : Bool :=
  (List.range (hay.length + 1)).any fun i => pat.isPrefixOf (hay.drop i)

/-! ### AIProcessor.parseAIResponse / AIProcessor.extractSection
(`services/ai-processor.js`, lines 182-250) -/

/-- The continuation loop of `AIProcessor.extractSection`
(`while (j < lines.length && !lines[j].includes(':') && lines[j].trim())`):
append following lines that contain no colon and are non-blank. -/
def contTail (acc : List Char) : List (List Char) → List Char
  | [] => acc
  | l :: rest =>
    if !l.contains ':' && !(trimChars l).isEmpty then
      contTail (acc ++ ' ' :: trimChars l) rest
    else acc

/-- `AIProcessor.extractSection(lines, sectionName)`: find the first line
containing the label, take `line.split(':')[1]?.trim() || ''`, then append
continuation lines.  Returns `[]` (the empty string) when no line matches. -/
def extractSection (lines : List (List Char)) (sectionName : List Char) : List Char :=
  match lines with
  | [] => []
  | l :: rest =>
    if containsSeq l sectionName then
      contTail (trimChars ((splitOnChar ':' l).getD 1 [])) rest
    else extractSection rest sectionName

/-- The regular-expression match `aiResponse.match(/\x7b[\s\S]*\x7d/)` in
`parseAIResponse`: the (greedy) match runs from the first brace-open
character to the last brace-close character, provided the latter does not
precede the former; otherwise there is no match. -/
def firstBraceBlock (s : String) : Option String :=
  let cs := s.toList
  match cs.findIdx? (· = '{') with
  | none => none
  | some i =>
    match cs.reverse.findIdx? (· = '}') with
    | none => none
    | some jr =>
      let j := cs.length - 1 - jr
      if i ≤ j then some (String.mk ((cs.drop i).take (j - i + 1))) else none

/-- Result of `AIProcessor.parseAIResponse`.  `jsonInsights` is the object
produced by the structured (JSON) parse merged with the raw response;
`sectionInsights` is the labelled-section fallback with its five string
fields; `parseFailure` is the error object
`{error: "Failed to parse AI response", raw_response, timestamp}`.
Timestamps are not modelled (wall-clock time). -/
inductive AIInsights where
  | jsonInsights (obj : List (String × String)) (raw : String)
  | sectionInsights (primary tech exp notable summary : String) (raw : String)
  | parseFailure (raw : String)
deriving DecidableEq

/-- The fallback branch of `parseAIResponse` (lines 210-224): split the
response into lines and extract the five fixed labelled sections. -/
def fallbackSections (resp : String) : AIInsights :=
  let lines := splitOnChar '\n' resp.toList
  .sectionInsights
    (String.mk (extractSection lines "Primary skills".toList))
    (String.mk (extractSection lines "Tech stack".toList))
    (String.mk (extractSection lines "Experience level".toList))
    (String.mk (extractSection lines "Notable contributions".toList))
    (String.mk (extractSection lines "Brief professional summary".toList))
    resp

/-- `AIProcessor.parseAIResponse(aiResponse)`.  The built-in `JSON.parse`
is external to the repository and is passed as the parameter `jp`
(`jp b = none` models `JSON.parse` throwing on `b`).  When the brace block
is present and `JSON.parse` throws, the code rethrows (`throw jsonError`,
line 204), which lands in the outer catch (line 225) and produces the
error object — the fallback is only reached when no brace block matches. -/
def parseAIResponse (jp : String → Option (List (String × String))) (resp : String) :
    AIInsights :=
  match firstBraceBlock resp with
  | some block =>
    match jp block with
    | some obj => .jsonInsights obj resp
    | none => .parseFailure resp
  | none => fallbackSections resp

/-! A concrete stand-in for the external `JSON.parse`, restricted to flat
objects with string keys and string values (the shape the prompt requests).
It is used only to instantiate counterexamples at inputs on which the real
`JSON.parse` demonstrably fails; the general theorems quantify over the
parse function. -/

/-- Skip JSON whitespace. -/
def skipWs : List Char → List Char
  | c :: cs => if isJsWs c then skipWs cs else c :: cs
  | [] => []

/-- Parse a JSON string literal (no escape sequences). -/
def parseStringLit : List Char → Option (String × List Char)
  | '"' :: cs =>
    let content := cs.takeWhile (· ≠ '"')
    match cs.dropWhile (· ≠ '"') with
    | '"' :: rest => some (String.mk content, rest)
    | _ => none
  | _ => none

/-- Parse the members of a JSON object after the opening brace, consuming
the closing brace. -/
def parseMembers (fuel : Nat) (cs : List Char) :
    Option (List (String × String) × List Char) :=
  match fuel with
  | 0 => none
  | fuel + 1 =>
    match parseStringLit (skipWs cs) with
    | none => none
    | some (k, r1) =>
      match skipWs r1 with
      | ':' :: r2 =>
        match parseStringLit (skipWs r2) with
        | none => none
        | some (v, r3) =>
          match skipWs r3 with
          | ',' :: r4 => (parseMembers fuel r4).map fun p => ((k, v) :: p.1, p.2)
          | '}' :: r4 => some ([(k, v)], r4)
          | _ => none
      | _ => none

/-- Model of `JSON.parse` restricted to flat string-valued objects; every
input rejected by this function is also rejected by the real `JSON.parse`
when the expected shape is an object of five string fields. -/
def jsonParseObject (s : String) : Option (List (String × String)) :=
  match skipWs s.toList with
  | '{' :: cs =>
    match skipWs cs with
    | '}' :: rest => if (skipWs rest).isEmpty then some [] else none
    | cs' =>
      match parseMembers (cs'.length + 1) cs' with
      | some (ms, rest) => if (skipWs rest).isEmpty then some ms else none
      | none => none
  | _ => none

/-! ### AIProcessor enrichment queue (`services/ai-processor.js`, lines 13-16, 91-128)

The JavaScript event loop runs each synchronous segment to completion, so
the queue's behaviour is a labelled transition system whose atomic steps
are the synchronous segments of `queueAIRequest` / `processQueue`:

* `submit id t` — `queueAIRequest` at time `t`: push the item onto
  `requestQueue`, then call `processQueue()`, which runs synchronously up
  to its first await (the early return, or the flag set plus the shift of
  the head item, i.e. the start of a dispatch);
* `complete ok t` — the awaited body of an in-flight dispatch finishes at
  time `t` (the item was resolved when `ok = true`, rejected otherwise);
  the `finally` block clears `processingQueue` and schedules
  `setTimeout(() => this.processQueue(), this.rateLimitDelay)`;
* `timerFire idx t` — a pending timeout fires at time `t ≥` its scheduled
  time and calls `processQueue()`.

`inFlight` is structurally a list so that the single-flight property is a
theorem about the guard in `processQueue`, not a property of the state
type.  Each timer is recorded with the dispatch-end time that scheduled
it. -/

/-- `this.rateLimitDelay = 1000` (constructor, line 16). -/
def rateLimitDelay : Nat := 1000

/-- What caused a dispatch to start: a direct call of `processQueue` from
`queueAIRequest`, or the self-rescheduled timeout (tagged with the time of
the dispatch end that scheduled it). -/
inductive Cause where
  | submission
  | timer (schedEnd : Nat)
deriving DecidableEq

/-- A recorded dispatch start. -/
structure DispatchStart where
  item : Nat
  time : Nat
  cause : Cause
deriving DecidableEq

/-- The mutable state of an `AIProcessor` together with the event bookkeeping
needed to state temporal properties. -/
structure AIQState where
  requestQueue : List Nat
  processingQueue : Bool
  inFlight : List Nat
  timers : List (Nat × Nat)
  now : Nat
  starts : List DispatchStart
  ends : List (Nat × Nat)
  resolutions : List (Nat × Bool)
deriving DecidableEq

/-- A fresh `AIProcessor` (constructor, lines 13-16). -/
def initQState : AIQState :=
  { requestQueue := [], processingQueue := false, inFlight := [], timers := []
    now := 0, starts := [], ends := [], resolutions := [] }

/-- The synchronous part of `processQueue` (lines 98-102): return
immediately when `processingQueue` is set or the queue is empty; otherwise
set the flag, shift the head item and start its dispatch. -/
def procQueue (t : Nat) (c : Cause) (s : AIQState) : AIQState :=
  if s.processingQueue || s.requestQueue.isEmpty then s
  else
    match s.requestQueue with
    | [] => s
    | i :: rest =>
      { s with requestQueue := rest, processingQueue := true
               inFlight := s.inFlight ++ [i]
               starts := s.starts ++ [⟨i, t, c⟩] }

/-- External events of the queue system. -/
inductive QEvent where
  | submit (id : Nat) (t : Nat)
  | complete (ok : Bool) (t : Nat)
  | timerFire (idx : Nat) (t : Nat)
deriving DecidableEq

/-- One event step.  `none` means the event is not enabled (time runs
backwards, a completion with nothing in flight, or a timer that does not
exist / has not yet reached its scheduled time). -/
def stepQ (s : AIQState) (e : QEvent) : Option AIQState :=
  match e with
  | .submit id t =>
    if s.now ≤ t then
      some (procQueue t .submission
        { s with requestQueue := s.requestQueue ++ [id], now := t })
    else none
  | .complete ok t =>
    match s.inFlight with
    | [] => none
    | i :: restF =>
      if s.now ≤ t then
        some { s with inFlight := restF, processingQueue := false, now := t
                      timers := s.timers ++ [(t + rateLimitDelay, t)]
                      ends := s.ends ++ [(i, t)]
                      resolutions := s.resolutions ++ [(i, ok)] }
      else none
  | .timerFire idx t =>
    match s.timers[idx]? with
    | some (fireAt, schedEnd) =>
      if s.now ≤ t ∧ fireAt ≤ t then
        some (procQueue t (.timer schedEnd)
          { s with timers := s.timers.eraseIdx idx, now := t })
      else none
    | none => none

/-- Run a sequence of events from a state. -/
def runQ (s : AIQState) : List QEvent → Option AIQState
  | [] => some s
  | e :: es =>
    match stepQ s e with
    | none => none
    | some s' => runQ s' es

/-- The property claimed by the specification for consecutive dispatches:
the `k`-th dispatch end and the `(k+1)`-th dispatch start are separated by
at least `rateLimitDelay`. -/
def dispatchGapsOK (s : AIQState) : Bool :=
  (List.range s.ends.length).all fun k =>
    match s.ends[k]?, s.starts[k+1]? with
    | some e, some st => decide (e.2 + rateLimitDelay ≤ st.time)
    | _, _ => true

/-! ### AIProcessor retry loop (`processQueue`, lines 104-121)

`sendToGemini` performs the external call; it is external I/O and is
modelled by `send : Nat → Except E R` giving the outcome of the `n`-th
attempt.  The loop is translated literally, including its (unreachable
from `attempts = 0`) fall-through exit, in which the promise would be
neither resolved nor rejected. -/

/-- `const maxAttempts = 3` (line 106). -/
def maxAttempts : Nat := 3

/-- How the `while (attempts < maxAttempts)` loop exits: `broke r` models
`resolve(response); break`, `threw e` models the rethrow that reaches
`reject(error)`, and `fellThrough` models the loop condition becoming
false without a break or throw. -/
inductive LoopExit (E R : Type) where
  | broke (r : R)
  | threw (e : E)
  | fellThrough
deriving DecidableEq

/-- The retry loop (lines 108-121), returning its exit and the list of
backoff delays that were slept (`retryDelay = this.rateLimitDelay * attempts`
after the increment, line 117). -/
def retryLoop (send : Nat → Except E R) (base : Nat) (attempts : Nat)
    (delays : List Nat) : LoopExit E R × List Nat :=
  if attempts < maxAttempts then
    match send (attempts + 1) with
    | .ok r => (.broke r, delays)
    | .error e =>
      if attempts + 1 ≥ maxAttempts then (.threw e, delays)
      else retryLoop send base (attempts + 1) (delays ++ [base * (attempts + 1)])
  else (.fellThrough, delays)
termination_by maxAttempts - attempts

/-- The per-item execution of `processQueue`: the retry loop started with
`attempts = 0` and no delays slept. -/
def processQueueItem (send : Nat → Except E R) (base : Nat) : LoopExit E R × List Nat :=
  retryLoop send base 0 []

/-! ### GitHubScraper data model and profile batching
(`GitHubScraper`: constructor lines 6-21, `processUserProfilesInBatches`
lines 317-328, `scrapeUserProfile` lines 330-458) -/

/-- A pinned repository (lines 412-416). -/
structure RepoRec where
  name : String
  description : Option String
  language : Option String
deriving DecidableEq

/-- The `raw_data` field of a user record: the empty object it is created
with (line 300), the object built from a successfully fetched profile
(lines 442-447), or the error marker `{error: err.message}` (line 455). -/
inductive RawData where
  | emptyObj
  | fetched (followers following : String) (organizations : List String)
      (profile_readme : Option String)
  | fetchError (msg : String)
deriving DecidableEq

/-- A user record as produced by search-page extraction (lines 295-302) and
enriched by profile extraction (`contribution_count`, `pinned_repositories`
are absent until then). -/
structure UserRec where
  username : String
  display_name : Option String
  profile_url : String
  bio : Option String
  contribution_count : Option String
  pinned_repositories : Option (List RepoRec)
  raw_data : RawData
deriving DecidableEq

/-- `this.batchSize = 3` (constructor, line 20). -/
def batchSize : Nat := 3

/-- `this.rateLimitDelay = 3000` (constructor, line 18). -/
def scraperRateLimitDelay : Nat := 3000

/-- Outcome of the transport call `this.client.get(user.profile_url)`:
a document, an empty body (line 341), or a thrown transport error. -/
inductive ProfOutcome where
  | ok (doc : String)
  | emptyDoc
  | err (msg : String)
deriving DecidableEq

/-- The profile cache: the entries of `this.cache` under `profile:` keys.
The source keeps one `Map` whose search keys start with `users:` and whose
profile keys start with `profile:`; the two key spaces are disjoint, so
they are modelled as separate tables. -/
abbrev ProfCache := List (String × UserRec)

/-- The cache key `` `profile:${user.username}` `` (line 331). -/
def profileKey (u : String) : String := "profile:" ++ u

/-- `GitHubScraper.scrapeUserProfile(user)`.  The cheerio extraction of the
fetched markup (lines 346-447) is external-library work over unstructured
documents and is the parameter `enhance`; the transport outcome is the
parameter `outcome` (a function of the username, as the URL is).  Returns
the produced record and the cache write, if any (only a successful scrape
writes, line 449). -/
def scrapeUserProfile (enhance : UserRec → String → UserRec)
    (outcome : String → ProfOutcome) (cache : ProfCache) (u : UserRec) :
    UserRec × Option (String × UserRec) :=
  match cache.lookup (profileKey u.username) with
  | some v => (v, none)
  | none =>
    match outcome u.username with
    | .err m => ({ u with raw_data := .fetchError m }, none)
    | .emptyDoc => (u, none)
    | .ok doc =>
      let e := enhance u doc
      (e, some (profileKey u.username, e))

/-- Scheduling events of the scraper: the connectivity probe, a search-page
fetch, a call of `scrapeUserProfile`, and an enforced pause. -/
inductive Ev where
  | connTest
  | searchPage (p : Nat)
  | scrapeCall (username : String)
  | sleep (ms : Nat)
deriving DecidableEq

/-- `GitHubScraper.processUserProfilesInBatches(users)` (lines 317-328):
process the list in slices of `B`, mapping `scrapeUserProfile` over each
slice concurrently (all cache reads of a slice happen synchronously before
any of its fetches completes, so they see the pre-slice cache; the writes
are merged afterwards), and sleep for `delay` after a slice exactly when
more candidates remain (`if (i + this.batchSize < users.length)`).
Returns the collected records, the final cache and the event trace. -/
def processUserProfilesInBatches (enhance : UserRec → String → UserRec)
    (outcome : String → ProfOutcome) (B delay : Nat) (hB : 0 < B)
    (cache : ProfCache) (users : List UserRec) :
    List UserRec × ProfCache × List Ev :=
  if hu : users.isEmpty then ([], cache, [])
  else
    let results := (users.take B).map (scrapeUserProfile enhance outcome cache)
    let detailed := results.map Prod.fst
    let cache' := results.filterMap Prod.snd ++ cache
    let evs := (users.take B).map fun u => Ev.scrapeCall u.username
    if (users.drop B).isEmpty then (detailed, cache', evs)
    else
      let r := processUserProfilesInBatches enhance outcome B delay hB cache' (users.drop B)
      (detailed ++ r.1, r.2.1, evs ++ Ev.sleep delay :: r.2.2)
termination_by users.length
decreasing_by
  simp only [List.length_drop]
  have h1 : users.length ≠ 0 := by
    simpa [List.isEmpty_iff_length_eq_zero] using hu
  omega

/-- The slices `users.slice(i, i + B)` visited by the batching loop. -/
def chunksOf (B : Nat) (hB : 0 < B) (l : List α) : List (List α) :=
  if l.isEmpty then []
  else l.take B :: chunksOf B hB (l.drop B)
termination_by l.length
decreasing_by
  simp only [List.length_drop]
  have h1 : l.length ≠ 0 := by
    simpa [List.isEmpty_iff_length_eq_zero] using (by assumption : ¬l.isEmpty = true)
  omega

/-- Join batch traces with a single pause between consecutive batches (and
none after the last). -/
def joinSleep (delay : Nat) : List (List Ev) → List Ev
  | [] => []
  | [b] => b
  | b :: bs => b ++ Ev.sleep delay :: joinSleep delay bs

/-- Recogniser for `scrapeCall` events. -/
def isScrapeEv : Ev → Bool
  | .scrapeCall _ => true
  | _ => false

/-- The record `scrapeUserProfile` produces for a candidate it finds
uncached: the error marker on a transport error, the unchanged candidate
on an empty body, the enhanced record otherwise.  (Derived
characterisation used to state the batching theorems.) -/
def profileResultSpec (enhance : UserRec → String → UserRec)
    (outcome : String → ProfOutcome) (u : UserRec) : UserRec :=
  match outcome u.username with
  | .err m => { u with raw_data := .fetchError m }
  | .emptyDoc => u
  | .ok doc => enhance u doc

/-! ### GitHubScraper search pipeline
(`searchUsers` lines 23-55, `testGitHubConnectivity` lines 57-70,
`fetchAllUsers` lines 72-92, `scrapeUsersPage` lines 94-315) -/

/-- Outcome of a transport call for a search page. -/
inductive FetchRes where
  | ok (doc : String)
  | err (msg : String)
deriving DecidableEq

/-- The search-page cache: the entries of `this.cache` under `users:` keys. -/
abbrev SearchCache := List (String × List UserRec)

/-- The cache key `` `users:${query}:page:${page}` `` (line 95). -/
def searchKey (query : String) (page : Nat) : String :=
  "users:" ++ query ++ ":page:" ++ toString page

/-- The external collaborators of one `searchUsers` run: whether the
connectivity probe succeeds, the transport outcome per search page, the
cheerio extraction of a search-results document (lines 125-305, external
markup work), and the profile-side collaborators of
`scrapeUserProfile`. -/
structure ScrapeEnv where
  conn : Bool
  fetchPage : Nat → FetchRes
  extractSearch : String → List UserRec
  profileOutcome : String → ProfOutcome
  enhance : UserRec → String → UserRec

/-- `GitHubScraper.scrapeUsersPage(query, page)`: consult the cache, fetch
the page, return `[]` on a transport error (lines 310-314) or an empty
body (lines 108-111), otherwise extract the candidates and sleep
`this.rateLimitDelay` before returning.  Returns the candidates and the
events performed.  (The fan-out issues all pages before any completes, so
every page sees the same pre-call cache; the page-cache write, line 307,
is observable only by later `searchUsers` calls and is not modelled.) -/
def scrapeUsersPage (env : ScrapeEnv) (sc : SearchCache) (query : String)
    (page : Nat) : List UserRec × List Ev :=
  match sc.lookup (searchKey query page) with
  | some users => (users, [])
  | none =>
    match env.fetchPage page with
    | .err _ => ([], [.searchPage page])
    | .ok doc =>
      if doc = "" then ([], [.searchPage page])
      else (env.extractSearch doc, [.searchPage page, .sleep scraperRateLimitDelay])

/-- `GitHubScraper.fetchAllUsers(query, pages)` (lines 72-92): dispatch
pages `1..pages` concurrently, await all, flatten in page order. -/
def fetchAllUsers (env : ScrapeEnv) (sc : SearchCache) (query : String)
    (pages : Nat) : List UserRec × List Ev :=
  let rs := (List.range' 1 pages).map fun p => scrapeUsersPage env sc query p
  ((rs.map Prod.fst).flatten, (rs.map Prod.snd).flatten)

/-- A JavaScript value passed as the `query` argument: a string, or any
non-string value (all non-strings fail the
`typeof query !== 'string'` check). -/
inductive JsVal where
  | str (s : String)
  | nonString
deriving DecidableEq

/-- The validation `!query || typeof query !== 'string' || query.trim().length === 0`
(line 28), as a validity predicate (`true` = the query passes). -/
def validQuery : JsVal → Bool
  | .str s => !decide (s = "") && !(trimChars s.toList).isEmpty
  | .nonString => false

/-- `GitHubScraper.searchUsers(query, pages)` (lines 23-55): validate the
query (returning `[]` before any network activity on failure), probe
connectivity (a network GET; its failure is thrown and caught by the outer
catch, yielding `[]`), fan out the search pages, return `[]` when no users
were found, otherwise run the profile batching.  Returns the result list
and the event trace. -/
def searchUsers (env : ScrapeEnv) (sc : SearchCache) (pc : ProfCache)
    (query : JsVal) (pages : Nat) : List UserRec × List Ev :=
  if !validQuery query then ([], [])
  else
    let q := match query with | .str s => s | .nonString => ""
    if !env.conn then ([], [.connTest])
    else
      let r := fetchAllUsers env sc q pages
      if r.1.isEmpty then ([], .connTest :: r.2)
      else
        let b := processUserProfilesInBatches env.enhance env.profileOutcome
          batchSize scraperRateLimitDelay (by decide) pc r.1
        (b.1, .connTest :: r.2 ++ b.2.2)

/-! ### GitHubScraper numeric count fields
(`scrapeUserProfile`, lines 350-369 and 423-424) -/

/-- Model of `text.replace(/\D/g, '')`: strip every non-digit character. -/
def stripNonDigits (s : String) : String :=
  String.mk (s.toList.filter Char.isDigit)

/-- The follower/following extraction
`$('...').first().text().replace(/\D/g, '') || '0'` (lines 423-424): strip
non-digits from the matched text; an empty result (falsy) yields `'0'`. -/
def followersCount (txt : String) : String :=
  if stripNonDigits txt = "" then "0" else stripNonDigits txt

/-- The `(?:,\d+)*` part of the contribution regular expression: after an
initial digit run, repeatedly consume a comma followed by a non-empty
digit run.  The fuel argument only bounds the recursion (each step consumes
at least one character, so fuel equal to the text length is never
exhausted); it keeps the definition structurally recursive. -/
def numTailF : Nat → List Char → List Char
  | 0, _ => []
  | _, [] => []
  | fuel + 1, c :: cs =>
    if c = ',' then
      if (cs.takeWhile Char.isDigit).isEmpty then []
      else ',' :: cs.takeWhile Char.isDigit ++ numTailF fuel (cs.dropWhile Char.isDigit)
    else []

/-- The comma-group tail with sufficient fuel. -/
def numTail (cs : List Char) : List Char := numTailF cs.length cs

/-- The first match of `/(\d+(?:,\d+)*)/` in a character sequence: scan to
the first digit, take the maximal digit run, then the comma-group tail. -/
def firstNumMatchAux : List Char → Option (List Char)
  | [] => none
  | c :: cs =>
    if c.isDigit then
      some ((c :: cs.takeWhile Char.isDigit) ++ numTail (cs.dropWhile Char.isDigit))
    else firstNumMatchAux cs

/-- `text.match(/(\d+(?:,\d+)*)/)`, first match as a string. -/
def firstNumMatch (s : String) : Option String :=
  (firstNumMatchAux s.toList).map String.mk

/-- The contribution-count extraction (lines 350-369): match the digit
pattern in the `contributions` heading text; on failure fall back to the
`.js-yearly-contributions` element when present (`alt = some text`), else
keep the initial `'0'`.  The matched text is used verbatim. -/
def contributionCountExtract (primary : String) (alt : Option String) : String :=
  match firstNumMatch primary with
  | some m => m
  | none =>
    match alt with
    | some atext =>
      match firstNumMatch atext with
      | some m => m
      | none => "0"
    | none => "0"

/-! ### Concrete fixtures used by witnesses and counterexamples -/

/-- A candidate as produced by search-page extraction (lines 295-302):
only the search-page fields are populated. -/
def mkCand (n : String) : UserRec :=
  { username := n, display_name := none, profile_url := "https://github.com/" ++ n
    bio := none, contribution_count := none, pinned_repositories := none
    raw_data := .emptyObj }

/-- The C7 scenario environment: connectivity succeeds, the fetch of page 1
fails with a transport error, page 2 succeeds and extracts three
candidates; every profile fetch succeeds. -/
def envScenario : ScrapeEnv :=
  { conn := true
    fetchPage := fun p => if p = 1 then .err "socket hang up" else .ok "docpage2"
    extractSearch := fun d =>
      if d = "docpage2" then [mkCand "alice", mkCand "bob", mkCand "carol"] else []
    profileOutcome := fun _ => .ok "profiledoc"
    enhance := fun u _ => u }

/-- An environment whose pages extract no candidates (a successful search
with zero results). -/
def envNoResults : ScrapeEnv :=
  { conn := true
    fetchPage := fun _ => .ok "emptydoc"
    extractSearch := fun _ => []
    profileOutcome := fun _ => .ok "profiledoc"
    enhance := fun u _ => u }

/-! ## Theorems -/

/-! ### Response parser dispatch (claim C4) -/

/-- C4 counterexample: for the response text with a brace block that is not
valid JSON, `parseAIResponse` returns the error variant, not the fallback
labelled-section scan — the inner `throw jsonError` lands in the outer
catch and skips the fallback code.  (The real `JSON.parse` also throws on
this block.) -/
theorem parseAIResponse_jsonfailure_cex :
    firstBraceBlock "{nope}" = some "{nope}" ∧
    jsonParseObject "{nope}" = none ∧
    parseAIResponse jsonParseObject "{nope}" = .parseFailure "{nope}" ∧
    parseAIResponse jsonParseObject "{nope}" ≠ fallbackSections "{nope}" := by
  refine ⟨by decide, by decide, by decide, ?_⟩
  decide

/-- C4 (amended): the fallback labelled-section line scan is applied
exactly when the primary brace-delimited block is absent; when the block
is present but its structured parse fails, `parseAIResponse` returns the
error variant instead. -/
theorem parseAIResponse_dispatch
    (jp : String → Option (List (String × String))) (resp : String) :
    (firstBraceBlock resp = none →
      parseAIResponse jp resp = .sectionInsights
        (String.mk (extractSection (splitOnChar '\n' resp.toList) "Primary skills".toList))
        (String.mk (extractSection (splitOnChar '\n' resp.toList) "Tech stack".toList))
        (String.mk (extractSection (splitOnChar '\n' resp.toList) "Experience level".toList))
        (String.mk (extractSection (splitOnChar '\n' resp.toList) "Notable contributions".toList))
        (String.mk (extractSection (splitOnChar '\n' resp.toList)
          "Brief professional summary".toList))
        resp) ∧
    (∀ b, firstBraceBlock resp = some b → jp b = none →
      parseAIResponse jp resp = .parseFailure resp) := by
  constructor
  · intro h
    simp [parseAIResponse, h, fallbackSections]
  · intro b hb hj
    simp [parseAIResponse, hb, hj]

/-- Witness for C4's amended theorem: a block-free response goes through
the fallback scan; a response whose block is unparseable yields the error
variant. -/
theorem parseAIResponse_dispatch_witness :
    (firstBraceBlock "Primary skills: Rust" = none ∧
      parseAIResponse jsonParseObject "Primary skills: Rust" =
        .sectionInsights "Rust" "" "" "" "" "Primary skills: Rust") ∧
    (firstBraceBlock "{nada}" = some "{nada}" ∧ jsonParseObject "{nada}" = none ∧
      parseAIResponse jsonParseObject "{nada}" = .parseFailure "{nada}") := by
  refine ⟨⟨by decide, ?_⟩, ⟨by decide, by decide, ?_⟩⟩
  · rw [(parseAIResponse_dispatch jsonParseObject "Primary skills: Rust").1 (by decide)]
    decide
  · exact (parseAIResponse_dispatch jsonParseObject "{nada}").2 "{nada}" (by decide) (by decide)

/-! ### Retry policy (claim C2) -/

/-- The retry loop, entered with fewer attempts than the maximum, never
exits by falling through the loop condition: every item is either resolved
or rejected, never silently dropped. -/
theorem retryLoop_no_fallthrough (send : Nat → Except E R) (base attempts : Nat)
    (delays : List Nat) (h : attempts < maxAttempts) :
    (retryLoop send base attempts delays).1 ≠ .fellThrough := by
  rw [retryLoop]
  simp only [if_pos h]
  cases hs : send (attempts + 1) with
  | ok r => simp
  | error e =>
    by_cases h2 : attempts + 1 ≥ maxAttempts
    · simp [h2]
    · simp only [if_neg h2]
      exact retryLoop_no_fallthrough send base (attempts + 1) _ (by omega)
termination_by maxAttempts - attempts

/-- C2: per-item retry behaviour of `processQueue`.  The external call is
attempted at most 3 times; a failure on attempt `n < 3` is followed by a
backoff of `base * n` (strictly increasing); success resolves with the
response and exhaustion rejects with the final error, each as the single
outcome of the item; the loop never silently drops an item, and submission
(`queueAIRequest`) never fails. -/
theorem retryPolicy_correct (E R : Type) (send : Nat → Except E R) (base : Nat)
    (hbase : 0 < base) :
    (∀ r, send 1 = .ok r → processQueueItem send base = (.broke r, [])) ∧
    (∀ e1 r, send 1 = .error e1 → send 2 = .ok r →
      processQueueItem send base = (.broke r, [base * 1])) ∧
    (∀ e1 e2 r, send 1 = .error e1 → send 2 = .error e2 → send 3 = .ok r →
      processQueueItem send base = (.broke r, [base * 1, base * 2])) ∧
    (∀ e1 e2 e3, send 1 = .error e1 → send 2 = .error e2 → send 3 = .error e3 →
      processQueueItem send base = (.threw e3, [base * 1, base * 2])) ∧
    (processQueueItem send base).1 ≠ .fellThrough ∧
    base * 1 < base * 2 ∧
    (∀ (s : AIQState) (id t : Nat), s.now ≤ t → (stepQ s (.submit id t)).isSome = true) := by
  refine ⟨?_, ?_, ?_, ?_, ?_, by omega, ?_⟩
  · intro r h1
    rw [processQueueItem, retryLoop]
    simp [maxAttempts, h1]
  · intro e1 r h1 h2
    rw [processQueueItem, retryLoop]
    simp only [maxAttempts, h1]
    norm_num
    rw [retryLoop]
    simp [maxAttempts, h2]
  · intro e1 e2 r h1 h2 h3
    rw [processQueueItem, retryLoop]
    simp only [maxAttempts, h1]
    norm_num
    rw [retryLoop]
    simp only [maxAttempts, h2]
    norm_num
    rw [retryLoop]
    simp [maxAttempts, h3]
  · intro e1 e2 e3 h1 h2 h3
    rw [processQueueItem, retryLoop]
    simp only [maxAttempts, h1]
    norm_num
    rw [retryLoop]
    simp only [maxAttempts, h2]
    norm_num
    rw [retryLoop]
    simp [maxAttempts, h3]
  · exact retryLoop_no_fallthrough send base 0 [] (by simp [maxAttempts])
  · intro s id t ht
    simp [stepQ, ht]

/-- Witness for C2: with `base = 1000` and an external call failing on the
first two attempts and succeeding on the third, the item resolves with the
response after exactly the backoffs `[1000, 2000]`; a call failing on all
three attempts rejects with the third error after the same backoffs. -/
theorem retryPolicy_correct_witness :
    (0 < 1000) ∧
    processQueueItem (R := String)
      (fun n => if n ≤ 2 then .error "e" else .ok "r") 1000 =
      (.broke "r", [1000, 2000]) ∧
    processQueueItem (R := String) (fun _ => (.error "e" : Except String String)) 1000 =
      (.threw "e", [1000, 2000]) := by
    refine ⟨by decide, ?_, ?_⟩
    · have h := (retryPolicy_correct String String
        (fun n => if n ≤ 2 then .error "e" else .ok "r") 1000 (by decide)).2.2.1
      have h2 := h "e" "e" "r" rfl rfl rfl
      simpa using h2
    · have h := (retryPolicy_correct String String
        (fun _ => (.error "e" : Except String String)) 1000 (by decide)).2.2.2.1
      have h2 := h "e" "e" "e" rfl rfl rfl
      simpa using h2

/-! ### Numeric count fields (claim C8) -/

/-- `(String.mk l).toList` is `l` (used to move between the two string
representations). -/
theorem string_toList_mk (l : List Char) : (String.mk l).toList = l := rfl

/-- C8 counterexample: the contribution count is the verbatim first match
of `/(\d+(?:,\d+)*)/` — for the heading text `1,234 contributions` it is
`"1,234"` with its comma, not the result `"1234"` of stripping non-digit
characters as the claim states. -/
theorem countFields_strip_cex :
    contributionCountExtract "1,234 contributions" none = "1,234" ∧
    stripNonDigits "1,234 contributions" = "1234" ∧
    contributionCountExtract "1,234 contributions" none ≠
      (if stripNonDigits "1,234 contributions" = "" then "0"
       else stripNonDigits "1,234 contributions") := by
  refine ⟨by decide, by decide, by decide⟩

/-- The comma-group tail of the contribution match is an initial segment of
the text it was matched in (for every fuel value). -/
theorem numTailF_prefix (fuel : Nat) (cs : List Char) :
    ∃ t, numTailF fuel cs ++ t = cs := by
  induction fuel generalizing cs with
  | zero => exact ⟨cs, by cases cs <;> rfl⟩
  | succ fuel ih =>
    cases cs with
    | nil => exact ⟨[], rfl⟩
    | cons c cs =>
      rw [numTailF]
      by_cases hc : c = ','
      · simp only [if_pos hc]
        by_cases hd : (cs.takeWhile Char.isDigit).isEmpty
        · exact ⟨c :: cs, by simp [hd]⟩
        · simp only [if_neg hd]
          obtain ⟨t, ht⟩ := ih (cs.dropWhile Char.isDigit)
          subst hc
          refine ⟨t, ?_⟩
          simp only [List.cons_append, List.append_assoc, ht]
          rw [List.takeWhile_append_dropWhile]
      · exact ⟨c :: cs, by simp [hc]⟩

/-- A successful contribution match is a contiguous substring of the text. -/
theorem firstNumMatchAux_infix (cs m : List Char)
    (h : firstNumMatchAux cs = some m) : ∃ pre suf, pre ++ m ++ suf = cs := by
  induction cs with
  | nil => simp [firstNumMatchAux] at h
  | cons c cs ih =>
    rw [firstNumMatchAux] at h
    by_cases hc : c.isDigit
    · simp only [if_pos hc, Option.some.injEq] at h
      subst h
      obtain ⟨t, ht⟩ := numTailF_prefix (cs.dropWhile Char.isDigit).length
        (cs.dropWhile Char.isDigit)
      refine ⟨[], t, ?_⟩
      simp only [numTail, List.nil_append, List.cons_append, List.append_assoc, ht]
      rw [List.takeWhile_append_dropWhile]
    · simp only [if_neg hc] at h
      obtain ⟨pre, suf, hps⟩ := ih h
      exact ⟨c :: pre, suf, by simp [hps]⟩

/-- A text with no digit character has no contribution match. -/
theorem firstNumMatchAux_none (cs : List Char)
    (h : ∀ c ∈ cs, c.isDigit = false) : firstNumMatchAux cs = none := by
  induction cs with
  | nil => rfl
  | cons c cs ih =>
    rw [firstNumMatchAux]
    have hc := h c (by simp)
    simp only [hc, Bool.false_eq_true, if_false]
    exact ih fun x hx => h x (by simp [hx])

/-- A successful contribution match is non-empty. -/
theorem firstNumMatchAux_ne_nil (cs m : List Char)
    (h : firstNumMatchAux cs = some m) : m ≠ [] := by
  induction cs with
  | nil => simp [firstNumMatchAux] at h
  | cons c cs ih =>
    rw [firstNumMatchAux] at h
    by_cases hc : c.isDigit
    · simp only [if_pos hc, Option.some.injEq] at h
      subst h
      simp
    · simp only [if_neg hc] at h
      exact ih h

/-- C8 (amended): the follower/following counts are produced by stripping
every non-digit character from the matched text, defaulting to `"0"` when
nothing remains; the contribution count is the verbatim first match of the
comma-grouped digit pattern in the heading text (falling back to the
alternative element, then to `"0"` when neither contains a digit); all the
extractions are total and never an error. -/
theorem countFields_extraction (txt : String) (alt : Option String) :
    (followersCount txt).toList.all Char.isDigit = true ∧
    ((∀ c ∈ txt.toList, c.isDigit = false) → followersCount txt = "0") ∧
    (¬ (∀ c ∈ txt.toList, c.isDigit = false) →
      (followersCount txt).toList = txt.toList.filter Char.isDigit) ∧
    (∀ m, firstNumMatch txt = some m →
      contributionCountExtract txt alt = m ∧
      (∃ pre suf, pre ++ m.toList ++ suf = txt.toList) ∧ m ≠ "") ∧
    ((∀ c ∈ txt.toList, c.isDigit = false) →
      (∀ a, alt = some a → ∀ c ∈ a.toList, c.isDigit = false) →
      contributionCountExtract txt alt = "0") := by
  refine ⟨?_, ?_, ?_, ?_, ?_⟩
  · by_cases hd : stripNonDigits txt = ""
    · rw [followersCount, if_pos hd]
      decide
    · rw [followersCount, if_neg hd, stripNonDigits, string_toList_mk]
      simp only [List.all_eq_true]
      intro c hc
      exact (List.mem_filter.mp hc).2
  · intro h
    have h0 : txt.toList.filter Char.isDigit = [] := by
      rw [List.filter_eq_nil_iff]
      intro c hc
      simp [h c hc]
    have h1 : stripNonDigits txt = "" := by
      rw [stripNonDigits, h0]
    rw [followersCount, if_pos h1]
  · intro h
    push_neg at h
    obtain ⟨c, hc, hcd⟩ := h
    have hmem : c ∈ txt.toList.filter Char.isDigit :=
      List.mem_filter.mpr ⟨hc, by simpa using hcd⟩
    have hne : stripNonDigits txt ≠ "" := by
      intro hcon
      rw [stripNonDigits] at hcon
      have hnil : txt.toList.filter Char.isDigit = ([] : List Char) := by
        have h5 := congrArg String.toList hcon
        simpa [string_toList_mk] using h5
      rw [hnil] at hmem
      simp at hmem
    rw [followersCount, if_neg hne, stripNonDigits, string_toList_mk]
  · intro m hm
    refine ⟨?_, ?_, ?_⟩
    · rw [contributionCountExtract.eq_def, hm]
    · rw [firstNumMatch] at hm
      rcases ha : firstNumMatchAux txt.toList with _ | mm
      · rw [ha] at hm
        exact absurd (show (none : Option String) = some m from hm)
          (fun hcon => Option.noConfusion hcon)
      · rw [ha] at hm
        have hm2 : String.mk mm = m := by
          have h6 : some (String.mk mm) = some m := hm
          injection h6
        subst hm2
        obtain ⟨pre, suf, hps⟩ := firstNumMatchAux_infix txt.toList mm ha
        exact ⟨pre, suf, by simpa [string_toList_mk] using hps⟩
    · rw [firstNumMatch] at hm
      rcases ha : firstNumMatchAux txt.toList with _ | mm
      · rw [ha] at hm
        exact absurd (show (none : Option String) = some m from hm)
          (fun hcon => Option.noConfusion hcon)
      · rw [ha] at hm
        have hm2 : String.mk mm = m := by
          have h6 : some (String.mk mm) = some m := hm
          injection h6
        subst hm2
        have h3 := firstNumMatchAux_ne_nil txt.toList mm ha
        intro hcon
        apply h3
        have h7 := congrArg String.toList hcon
        simpa [string_toList_mk] using h7
  · intro h halt
    have h1 : firstNumMatch txt = none := by
      rw [firstNumMatch, firstNumMatchAux_none txt.toList (fun c hc => h c hc)]
      rfl
    rw [contributionCountExtract.eq_def, h1]
    cases alt with
    | none => rfl
    | some a =>
      have h2 : firstNumMatch a = none := by
        rw [firstNumMatch,
          firstNumMatchAux_none a.toList (fun c hc => halt a rfl c hc)]
        rfl
      simp only [h2]

/-- Witness for C8's amended theorem at concrete texts. -/
theorem countFields_extraction_witness :
    followersCount "no digits" = "0" ∧
    (followersCount "1.2k followers").toList = "1.2k followers".toList.filter Char.isDigit ∧
    contributionCountExtract "1,234 contributions" none = "1,234" ∧
    contributionCountExtract "none" (some "still none") = "0" := by
  have h1 := (countFields_extraction "no digits" none).2.1 (by decide)
  have h2 := (countFields_extraction "1.2k followers" none).2.2.1 (by decide)
  have h3 := ((countFields_extraction "1,234 contributions" none).2.2.2.1
    "1,234" (by decide)).1
  have h4 := (countFields_extraction "none" (some "still none")).2.2.2.2 (by decide)
    (fun a ha => by injection ha with hh; subst hh; decide)
  exact ⟨h1, h2, h3, h4⟩

/-! ### Enrichment queue invariants (claims C1, C6, C10) -/

/-- The joint invariant of every reachable queue state: the in-flight list
has exactly one element while `processingQueue` is set and none otherwise;
every pending timer fires `rateLimitDelay` after the dispatch end that
scheduled it; every timer-caused dispatch start happened at least
`rateLimitDelay` after the dispatch end that scheduled its timer. -/
def QInv (s : AIQState) : Prop :=
  s.inFlight.length = (if s.processingQueue then 1 else 0) ∧
  (∀ p ∈ s.timers, p.1 = p.2 + rateLimitDelay ∧ p.2 ∈ s.ends.map Prod.snd) ∧
  (∀ st ∈ s.starts, ∀ te, st.cause = .timer te →
    te + rateLimitDelay ≤ st.time ∧ te ∈ s.ends.map Prod.snd)

/-- `procQueue` on a state whose flag is clear and whose queue is nonempty
starts the dispatch of the head item. -/
theorem procQueue_starts (t : Nat) (c : Cause) (s : AIQState)
    (hp : s.processingQueue = false) (j : Nat) (rest : List Nat)
    (hq : s.requestQueue = j :: rest) :
    procQueue t c s =
      { s with requestQueue := rest, processingQueue := true
               inFlight := s.inFlight ++ [j]
               starts := s.starts ++ [⟨j, t, c⟩] } := by
  rw [procQueue, hp, hq]
  simp

/-- `procQueue` preserves the invariant, provided a timer-caused call
satisfies the start-gap condition. -/
theorem procQueue_QInv (t : Nat) (c : Cause) (s : AIQState) (h : QInv s)
    (hc : ∀ te, c = .timer te → te + rateLimitDelay ≤ t ∧ te ∈ s.ends.map Prod.snd) :
    QInv (procQueue t c s) := by
  obtain ⟨h1, h2, h3⟩ := h
  by_cases hp : s.processingQueue
  · rw [procQueue, hp]
    simp only [Bool.true_or, if_pos]
    exact ⟨h1, h2, h3⟩
  · rcases hq : s.requestQueue with _ | ⟨j, rest⟩
    · rw [procQueue, hq]
      simp only [List.isEmpty_nil, Bool.or_true, if_pos]
      exact ⟨h1, h2, h3⟩
    · rw [procQueue_starts t c s (by simpa using hp) j rest hq]
      refine ⟨?_, h2, ?_⟩
      · simp only [List.length_append, List.length_cons, List.length_nil]
        rw [h1]
        simp [hp]
      · intro st hst te hte
        rcases List.mem_append.mp hst with hold | hnew
        · exact h3 st hold te hte
        · have hst' : st = ⟨j, t, c⟩ := by simpa using hnew
          subst hst'
          exact hc te hte

/-- Every step of the queue system preserves the invariant. -/
theorem stepQ_QInv (s : AIQState) (e : QEvent) (s' : AIQState)
    (h : QInv s) (hs : stepQ s e = some s') : QInv s' := by
  obtain ⟨h1, h2, h3⟩ := h
  cases e with
  | submit id t =>
    rw [stepQ] at hs
    by_cases hnow : s.now ≤ t
    · rw [if_pos hnow] at hs
      injection hs with hs
      subst hs
      exact procQueue_QInv t .submission _ ⟨h1, h2, h3⟩ (fun te hte => by simp at hte)
    · rw [if_neg hnow] at hs
      exact absurd hs (by simp)
  | complete ok t =>
    rw [stepQ] at hs
    rcases hf : s.inFlight with _ | ⟨i, restF⟩
    · rw [hf] at hs
      exact absurd hs (by simp)
    · rw [hf] at hs
      by_cases hnow : s.now ≤ t
      · simp only [hnow, if_true] at hs
        injection hs with hs
        subst hs
        have hrest : restF = [] := by
          rw [hf] at h1
          by_cases hp : s.processingQueue <;> simp [hp] at h1 <;> simp [h1]
        refine ⟨by simp [hrest], ?_, ?_⟩
        · intro p hp
          rcases List.mem_append.mp hp with hold | hnew
          · obtain ⟨hfire, hmem⟩ := h2 p hold
            refine ⟨hfire, ?_⟩
            simp only [List.map_append]
            exact List.mem_append_left _ hmem
          · have hp' : p = (t + rateLimitDelay, t) := by simpa using hnew
            subst hp'
            refine ⟨rfl, ?_⟩
            simp
        · intro st hst te hte
          obtain ⟨hgap, hmem⟩ := h3 st hst te hte
          refine ⟨hgap, ?_⟩
          simp only [List.map_append]
          exact List.mem_append_left _ hmem
      · simp only [hnow, if_false] at hs
        exact absurd hs (by simp)
  | timerFire idx t =>
    rw [stepQ] at hs
    rcases hidx : s.timers[idx]? with _ | ⟨fireAt, schedEnd⟩
    · rw [hidx] at hs
      exact absurd hs (by simp)
    · rw [hidx] at hs
      by_cases hcond : s.now ≤ t ∧ fireAt ≤ t
      · simp only [hcond, if_true] at hs
        injection hs with hs
        subst hs
        obtain ⟨hfire, hmem⟩ := h2 (fireAt, schedEnd) (List.getElem?_mem hidx)
        apply procQueue_QInv
        · refine ⟨h1, ?_, h3⟩
          intro p hp
          exact h2 p (List.eraseIdx_subset s.timers idx hp)
        · intro te hte
          have hte' : te = schedEnd := by
            injection hte with hte
            exact hte.symm
          subst hte'
          refine ⟨?_, hmem⟩
          omega
      · simp only [hcond, if_false] at hs
        exact absurd hs (by simp)

/-- A run of the queue system preserves the invariant. -/
theorem runQ_QInv (evs : List QEvent) (s s' : AIQState) (h : QInv s)
    (hr : runQ s evs = some s') : QInv s' := by
  induction evs generalizing s with
  | nil =>
    rw [runQ] at hr
    injection hr with hr
    subst hr
    exact h
  | cons e es ih =>
    rw [runQ] at hr
    rcases he : stepQ s e with _ | s1
    · rw [he] at hr
      exact absurd hr (by simp)
    · rw [he] at hr
      exact ih s1 (stepQ_QInv s e s1 h he) hr

/-- The fresh state satisfies the invariant. -/
theorem initQState_QInv : QInv initQState := by
  refine ⟨rfl, ?_, ?_⟩ <;> simp [initQState]

/-- C1: the single-flight guarantee.  In every state reachable by any
sequence of submissions, completions and timer firings — in particular
when K items are submitted while one is in flight, for any K — at most one
dispatch (hence at most one outbound external call, the calls of a
dispatch being sequentially awaited) is in flight: `processQueue` returns
immediately while `processingQueue` is set, so no second dispatch starts
before the current item's handling completes. -/
theorem singleFlight_invariant (evs : List QEvent) (s : AIQState)
    (h : runQ initQState evs = some s) : s.inFlight.length ≤ 1 := by
  have h1 := (runQ_QInv evs initQState s initQState_QInv h).1
  rw [h1]
  split <;> omega

/-- Witness for C1: three items submitted at the same instant while the
first is in flight; exactly one dispatch is in flight. -/
theorem singleFlight_invariant_witness :
    runQ initQState [.submit 1 0, .submit 2 0, .submit 3 0] =
      some { requestQueue := [2, 3], processingQueue := true, inFlight := [1]
             timers := [], now := 0
             starts := [⟨1, 0, .submission⟩], ends := [], resolutions := [] } ∧
    ({ requestQueue := [2, 3], processingQueue := true, inFlight := [1]
       timers := [], now := 0
       starts := [⟨1, 0, .submission⟩], ends := [], resolutions := [] } : AIQState).inFlight.length ≤ 1 := by
  constructor
  · decide
  · exact singleFlight_invariant [.submit 1 0, .submit 2 0, .submit 3 0] _ (by decide)

/-- C6 counterexample: a dispatch ends at time 5 and a fresh submission at
time 5 starts the next dispatch immediately — `queueAIRequest` calls
`processQueue` directly, the flag was cleared by the `finally` block, and
no delay is enforced on this path; the end-to-start gap is 0, far below
`rateLimitDelay`. -/
theorem dispatchGap_cex :
    ((runQ initQState [.submit 10 0, .complete true 5, .submit 11 5]).map
      dispatchGapsOK) = some false ∧
    ((runQ initQState [.submit 10 0, .complete true 5, .submit 11 5]).map
      fun s => (s.starts.map (fun st => st.time), s.ends.map Prod.snd)) =
      some ([0, 5], [5]) := by
  constructor
  · decide
  · decide

/-- C6 (amended): the minimum inter-dispatch delay is enforced only on the
self-rescheduled path — every dispatch started by the timer that a
dispatch end scheduled begins at least `rateLimitDelay` after that end
(which is the time of an earlier recorded dispatch end); a dispatch
started by a fresh submission arriving after the in-flight flag is cleared
may begin immediately. -/
theorem timerDispatchGap (evs : List QEvent) (s : AIQState)
    (h : runQ initQState evs = some s) :
    ∀ st ∈ s.starts, ∀ te, st.cause = .timer te →
      te + rateLimitDelay ≤ st.time ∧ te ∈ s.ends.map Prod.snd := by
  exact (runQ_QInv evs initQState s initQState_QInv h).2.2

/-- Witness for C6's amended theorem: an item queued during a dispatch is
started by the re-arm timer exactly `rateLimitDelay` after the dispatch
end that scheduled it. -/
theorem timerDispatchGap_witness :
    runQ initQState [.submit 1 0, .submit 2 0, .complete true 2, .timerFire 0 1002] =
      some { requestQueue := [], processingQueue := true, inFlight := [2]
             timers := [], now := 1002
             starts := [⟨1, 0, .submission⟩, ⟨2, 1002, .timer 2⟩]
             ends := [(1, 2)], resolutions := [(1, true)] } ∧
    ((2 : Nat) + rateLimitDelay ≤ 1002 ∧
      (2 : Nat) ∈ ([(1, 2)] : List (Nat × Nat)).map Prod.snd) := by
  constructor
  · decide
  · exact timerDispatchGap [.submit 1 0, .submit 2 0, .complete true 2, .timerFire 0 1002]
      { requestQueue := [], processingQueue := true, inFlight := [2]
        timers := [], now := 1002
        starts := [⟨1, 0, .submission⟩, ⟨2, 1002, .timer 2⟩]
        ends := [(1, 2)], resolutions := [(1, true)] }
      (by decide) ⟨2, 1002, .timer 2⟩ (by decide) 2 rfl

/-- C10: the completion of a dispatch — whether the item was resolved or
rejected after exhausting its retries (`ok` is arbitrary and the state
updates do not depend on it) — always runs the `finally` block: the
in-flight flag is cleared and a further `processQueue` call is scheduled
`rateLimitDelay` later; when the queue is nonempty, that timer's firing
(at any time it can fire) starts the dispatch of the next queued item, so
a failed item never stalls the queue. -/
theorem processQueue_rearm (s : AIQState) (ok : Bool) (t : Nat) (s' : AIQState)
    (h : stepQ s (.complete ok t) = some s') :
    s'.processingQueue = false ∧
    s'.timers = s.timers ++ [(t + rateLimitDelay, t)] ∧
    (∀ t', t + rateLimitDelay ≤ t' →
      ∀ j rest, s'.requestQueue = j :: rest →
        ∃ s'', stepQ s' (.timerFire s.timers.length t') = some s'' ∧
          s''.processingQueue = true ∧
          s''.inFlight = s'.inFlight ++ [j] ∧
          s''.starts = s'.starts ++ [⟨j, t', .timer t⟩] ∧
          s''.requestQueue = rest) := by
  rw [stepQ] at h
  rcases hf : s.inFlight with _ | ⟨i, restF⟩
  · rw [hf] at h
    exact absurd h (by simp)
  · rw [hf] at h
    by_cases hnow : s.now ≤ t
    · simp only [hnow, if_true] at h
      injection h with h
      subst h
      refine ⟨rfl, rfl, ?_⟩
      intro t' ht' j rest hq
      have hq' : s.requestQueue = j :: rest := hq
      refine ⟨⟨rest, true, restF ++ [j],
               (s.timers ++ [(t + rateLimitDelay, t)]).eraseIdx s.timers.length, t',
               s.starts ++ [⟨j, t', .timer t⟩], s.ends ++ [(i, t)],
               s.resolutions ++ [(i, ok)]⟩, ?_, rfl, rfl, rfl, rfl⟩
      simp only [stepQ, List.getElem?_concat_length]
      rw [if_pos (show t ≤ t' ∧ t + rateLimitDelay ≤ t' from ⟨by omega, by omega⟩)]
      rw [procQueue_starts t' (.timer t)
        { requestQueue := s.requestQueue, processingQueue := false, inFlight := restF
          timers := (s.timers ++ [(t + rateLimitDelay, t)]).eraseIdx s.timers.length, now := t'
          starts := s.starts, ends := s.ends ++ [(i, t)]
          resolutions := s.resolutions ++ [(i, ok)] } rfl j rest hq']
    · simp only [hnow, if_false] at h
      exact absurd h (by simp)

/-- Witness for C10: a rejected item's completion clears the flag,
schedules the re-arm timer, and the timer firing dispatches the next
queued item. -/
theorem processQueue_rearm_witness :
    stepQ { requestQueue := [8], processingQueue := true, inFlight := [7]
            timers := [], now := 2, starts := [⟨7, 1, .submission⟩]
            ends := [], resolutions := [] }
        (.complete false 2) =
      some { requestQueue := [8], processingQueue := false, inFlight := []
             timers := [(2 + rateLimitDelay, 2)], now := 2
             starts := [⟨7, 1, .submission⟩], ends := [(7, 2)]
             resolutions := [(7, false)] } ∧
    (2 : Nat) + rateLimitDelay ≤ 1002 ∧
    (∃ s'', stepQ { requestQueue := [8], processingQueue := false, inFlight := []
                    timers := [(2 + rateLimitDelay, 2)], now := 2
                    starts := [⟨7, 1, .submission⟩], ends := [(7, 2)]
                    resolutions := [(7, false)] }
        (.timerFire 0 1002) = some s'' ∧
      s''.processingQueue = true ∧
      s''.inFlight = [] ++ [8] ∧
      s''.starts = [⟨7, 1, .submission⟩] ++ [⟨8, 1002, .timer 2⟩] ∧
      s''.requestQueue = []) := by
  refine ⟨by decide, by decide, ?_⟩
  exact ((processQueue_rearm
    { requestQueue := [8], processingQueue := true, inFlight := [7]
      timers := [], now := 2, starts := [⟨7, 1, .submission⟩]
      ends := [], resolutions := [] } false 2
    { requestQueue := [8], processingQueue := false, inFlight := []
      timers := [(2 + rateLimitDelay, 2)], now := 2
      starts := [⟨7, 1, .submission⟩], ends := [(7, 2)]
      resolutions := [(7, false)] } (by decide)).2.2 1002 (by decide) 8 [] rfl)

/-! ### Batching schedule (claim C5) -/

/-- Batching equation: empty candidate list. -/
theorem PB_nil (enhance : UserRec → String → UserRec) (outcome : String → ProfOutcome)
    (B delay : Nat) (hB : 0 < B) (cache : ProfCache) :
    processUserProfilesInBatches enhance outcome B delay hB cache [] = ([], cache, []) := by
  rw [processUserProfilesInBatches]
  simp

/-- Batching equation: final batch (nothing remains after it): no pause is
appended. -/
theorem PB_last (enhance : UserRec → String → UserRec) (outcome : String → ProfOutcome)
    (B delay : Nat) (hB : 0 < B) (cache : ProfCache) (users : List UserRec)
    (h : users.isEmpty = false) (h2 : (users.drop B).isEmpty = true) :
    processUserProfilesInBatches enhance outcome B delay hB cache users =
      (((users.take B).map (scrapeUserProfile enhance outcome cache)).map Prod.fst,
       ((users.take B).map (scrapeUserProfile enhance outcome cache)).filterMap Prod.snd ++ cache,
       (users.take B).map fun u => Ev.scrapeCall u.username) := by
  rw [processUserProfilesInBatches]
  simp [h, h2]

/-- Batching equation: a batch with more candidates remaining: a single
pause follows it, then the loop continues on the remainder with the
augmented cache. -/
theorem PB_cons (enhance : UserRec → String → UserRec) (outcome : String → ProfOutcome)
    (B delay : Nat) (hB : 0 < B) (cache : ProfCache) (users : List UserRec)
    (h : users.isEmpty = false) (h2 : (users.drop B).isEmpty = false) :
    processUserProfilesInBatches enhance outcome B delay hB cache users =
      ((((users.take B).map (scrapeUserProfile enhance outcome cache)).map Prod.fst) ++
        (processUserProfilesInBatches enhance outcome B delay hB
          (((users.take B).map (scrapeUserProfile enhance outcome cache)).filterMap Prod.snd ++ cache)
          (users.drop B)).1,
       (processUserProfilesInBatches enhance outcome B delay hB
          (((users.take B).map (scrapeUserProfile enhance outcome cache)).filterMap Prod.snd ++ cache)
          (users.drop B)).2.1,
       ((users.take B).map fun u => Ev.scrapeCall u.username) ++ Ev.sleep delay ::
        (processUserProfilesInBatches enhance outcome B delay hB
          (((users.take B).map (scrapeUserProfile enhance outcome cache)).filterMap Prod.snd ++ cache)
          (users.drop B)).2.2) := by
  rw [processUserProfilesInBatches]
  simp [h, h2]

/-- Chunking equation: empty list. -/
theorem chunksOf_nil (B : Nat) (hB : 0 < B) :
    chunksOf B hB ([] : List α) = [] := by
  rw [chunksOf]
  simp

/-- Chunking equation: nonempty list. -/
theorem chunksOf_cons (B : Nat) (hB : 0 < B) (l : List α) (h : l.isEmpty = false) :
    chunksOf B hB l = l.take B :: chunksOf B hB (l.drop B) := by
  rw [chunksOf]
  simp [h]

/-- Each candidate of a batch contributes exactly one `scrapeCall` event. -/
theorem countP_scrape_map (l : List UserRec) :
    ((l.map fun u => Ev.scrapeCall u.username).countP isScrapeEv) = l.length := by
  induction l with
  | nil => rfl
  | cons a l ih => simp [List.countP_cons, isScrapeEv, ih]

/-- The batching trace is exactly the per-batch `scrapeCall` blocks joined
by single pauses: a pause between consecutive batches, none within a batch
and none after the final batch. -/
theorem PB_trace (enhance : UserRec → String → UserRec) (outcome : String → ProfOutcome)
    (B delay : Nat) (hB : 0 < B) (cache : ProfCache) (users : List UserRec) :
    (processUserProfilesInBatches enhance outcome B delay hB cache users).2.2 =
      joinSleep delay
        ((chunksOf B hB users).map (List.map fun u => Ev.scrapeCall u.username)) := by
  by_cases hu : users.isEmpty = true
  · have h0 : users = [] := List.isEmpty_iff.mp hu
    subst h0
    rw [PB_nil, chunksOf_nil]
    rfl
  · have hu' : users.isEmpty = false := by simpa using hu
    by_cases hr : (users.drop B).isEmpty = true
    · rw [PB_last enhance outcome B delay hB cache users hu' hr,
        chunksOf_cons B hB users hu', List.isEmpty_iff.mp hr, chunksOf_nil]
      rfl
    · have hr' : (users.drop B).isEmpty = false := by simpa using hr
      have ih := PB_trace enhance outcome B delay hB
        (((users.take B).map (scrapeUserProfile enhance outcome cache)).filterMap Prod.snd ++ cache)
        (users.drop B)
      rw [PB_cons enhance outcome B delay hB cache users hu' hr', chunksOf_cons B hB users hu']
      rw [ih, chunksOf_cons B hB (users.drop B) hr']
      simp [joinSleep]
termination_by users.length
decreasing_by
  have h1 : users.length ≠ 0 := by
    simpa [List.isEmpty_iff_length_eq_zero] using hu'
  simp only [List.length_drop]
  omega

/-- The batching trace contains exactly one `scrapeCall` per candidate. -/
theorem PB_count (enhance : UserRec → String → UserRec) (outcome : String → ProfOutcome)
    (B delay : Nat) (hB : 0 < B) (cache : ProfCache) (users : List UserRec) :
    (processUserProfilesInBatches enhance outcome B delay hB cache users).2.2.countP
      isScrapeEv = users.length := by
  by_cases hu : users.isEmpty = true
  · have h0 : users = [] := List.isEmpty_iff.mp hu
    subst h0
    rw [PB_nil]
    rfl
  · have hu' : users.isEmpty = false := by simpa using hu
    by_cases hr : (users.drop B).isEmpty = true
    · rw [PB_last enhance outcome B delay hB cache users hu' hr, countP_scrape_map]
      have h2 : users.drop B = [] := List.isEmpty_iff.mp hr
      have h3 : users.length - B = 0 := by
        have := congrArg List.length h2
        simpa [List.length_drop] using this
      simp only [List.length_take]
      omega
    · have hr' : (users.drop B).isEmpty = false := by simpa using hr
      have ih := PB_count enhance outcome B delay hB
        (((users.take B).map (scrapeUserProfile enhance outcome cache)).filterMap Prod.snd ++ cache)
        (users.drop B)
      rw [PB_cons enhance outcome B delay hB cache users hu' hr']
      rw [List.countP_append, List.countP_cons, countP_scrape_map, ih]
      have h4 : isScrapeEv (Ev.sleep delay) = false := rfl
      simp only [h4, Bool.false_eq_true, if_false, List.length_take, List.length_drop,
        Nat.add_zero]
      have h1 : users.length ≠ 0 := by
        simpa [List.isEmpty_iff_length_eq_zero] using hu'
      omega
termination_by users.length
decreasing_by
  have h1 : users.length ≠ 0 := by
    simpa [List.isEmpty_iff_length_eq_zero] using hu'
  simp only [List.length_drop]
  omega

/-- The number of batches is the ceiling of `M / B`. -/
theorem chunksOf_length (B : Nat) (hB : 0 < B) (l : List α) :
    (chunksOf B hB l).length = (l.length + B - 1) / B := by
  by_cases hu : l.isEmpty = true
  · have h0 : l = [] := List.isEmpty_iff.mp hu
    subst h0
    rw [chunksOf_nil]
    simp [Nat.div_eq_of_lt (by omega : B - 1 < B)]
  · have hu' : l.isEmpty = false := by simpa using hu
    have hl : 1 ≤ l.length := by
      rcases l with _ | ⟨a, l⟩
      · simp at hu'
      · simp
    rw [chunksOf_cons B hB l hu', List.length_cons, chunksOf_length B hB (l.drop B),
      List.length_drop]
    by_cases hbl : l.length ≤ B
    · have h1 : (l.length - B + B - 1) / B = 0 := Nat.div_eq_of_lt (by omega)
      have h2 : (l.length + B - 1) / B = 1 := by
        have h3 : l.length + B - 1 = (l.length - 1) + B := by omega
        rw [h3, Nat.add_div_right _ hB]
        have h4 : (l.length - 1) / B = 0 := Nat.div_eq_of_lt (by omega)
        omega
      omega
    · have h1 : l.length - B + B - 1 = (l.length - 1 - B) + B := by omega
      rw [h1, Nat.add_div_right _ hB]
      have h5 : (l.length + B - 1) / B = (l.length - 1 - B) / B + 1 + 1 := by
        have h2 : l.length + B - 1 = (l.length - 1) + B := by omega
        rw [h2, Nat.add_div_right _ hB]
        have h3 : l.length - 1 = (l.length - 1 - B) + B := by omega
        conv_lhs => rw [h3]
        rw [Nat.add_div_right _ hB]
      omega
termination_by l.length
decreasing_by
  have h1 : l.length ≠ 0 := by
    simpa [List.isEmpty_iff_length_eq_zero] using hu'
  simp only [List.length_drop]
  omega

/-- C5: for every candidate list of size `M` and batch size `B > 0`, the
batching loop issues exactly `M` profile-fetch operations (calls of
`scrapeUserProfile`), partitioned into `ceil(M/B)` sequential batches; an
enforced pause occurs between consecutive batches but not within a batch
and not after the final batch (the trace is the batch blocks joined by
single `sleep` events). -/
theorem batching_schedule (enhance : UserRec → String → UserRec)
    (outcome : String → ProfOutcome) (B delay : Nat) (hB : 0 < B)
    (cache : ProfCache) (users : List UserRec) :
    (processUserProfilesInBatches enhance outcome B delay hB cache users).2.2 =
      joinSleep delay
        ((chunksOf B hB users).map (List.map fun u => Ev.scrapeCall u.username)) ∧
    (processUserProfilesInBatches enhance outcome B delay hB cache users).2.2.countP
      isScrapeEv = users.length ∧
    (chunksOf B hB users).length = (users.length + B - 1) / B :=
  ⟨PB_trace enhance outcome B delay hB cache users,
   PB_count enhance outcome B delay hB cache users,
   chunksOf_length B hB users⟩

/-- Witness for C5 at batch size 3, delay 3000 (the constructor values) and
four candidates: four `scrapeCall` events in two batches with exactly one
pause between them and none after the last. -/
theorem batching_schedule_witness :
    (0 < 3) ∧
    (processUserProfilesInBatches (fun u _ => u) (fun _ => ProfOutcome.ok "doc") 3 3000
      (by decide) [] [mkCand "a", mkCand "b", mkCand "c", mkCand "d"]).2.2.countP
      isScrapeEv = 4 ∧
    (processUserProfilesInBatches (fun u _ => u) (fun _ => ProfOutcome.ok "doc") 3 3000
      (by decide) [] [mkCand "a", mkCand "b", mkCand "c", mkCand "d"]).2.2 =
      [.scrapeCall "a", .scrapeCall "b", .scrapeCall "c", .sleep 3000, .scrapeCall "d"] ∧
    (chunksOf 3 (by decide) [mkCand "a", mkCand "b", mkCand "c", mkCand "d"]).length = 2 := by
  refine ⟨by decide, ?_, ?_, ?_⟩
  · exact (batching_schedule (fun u _ => u) (fun _ => ProfOutcome.ok "doc") 3 3000
      (by decide) [] [mkCand "a", mkCand "b", mkCand "c", mkCand "d"]).2.1
  · rw [PB_cons (fun u _ => u) (fun _ => ProfOutcome.ok "doc") 3 3000 (by decide) []
      [mkCand "a", mkCand "b", mkCand "c", mkCand "d"] (by decide) (by decide),
      PB_last (fun u _ => u) (fun _ => ProfOutcome.ok "doc") 3 3000 (by decide) _ _
      (by decide) (by decide)]
    rfl
  · exact (batching_schedule (fun u _ => u) (fun _ => ProfOutcome.ok "doc") 3 3000
      (by decide) [] [mkCand "a", mkCand "b", mkCand "c", mkCand "d"]).2.2

/-! ### Per-candidate profile records (claim C3) -/

/-- An assoc list none of whose keys is `k` resolves `k` to nothing. -/
theorem lookup_none_of_keys {β : Type} (l : List (String × β)) (k : String)
    (h : ∀ p ∈ l, p.1 ≠ k) : l.lookup k = none := by
  induction l with
  | nil => rfl
  | cons a l ih =>
    rcases a with ⟨a1, a2⟩
    rw [List.lookup_cons]
    have h1 : (k == a1) = false :=
      beq_eq_false_iff_ne.mpr fun hc => (h (a1, a2) (by simp)) hc.symm
    rw [h1]
    exact ih fun p hp => h p (by simp [hp])

/-- Appending two tables without the key resolves it to nothing. -/
theorem lookup_append_none {β : Type} (l1 l2 : List (String × β)) (k : String)
    (h1 : l1.lookup k = none) (h2 : l2.lookup k = none) :
    (l1 ++ l2).lookup k = none := by
  induction l1 with
  | nil => simpa using h2
  | cons a l ih =>
    rcases a with ⟨a1, a2⟩
    rw [List.cons_append, List.lookup_cons]
    rw [List.lookup_cons] at h1
    cases hk : (k == a1) with
    | false =>
      rw [hk] at h1
      exact ih h1
    | true =>
      rw [hk] at h1
      exact absurd (show some a2 = none from h1) (by simp)

/-- Profile cache keys determine the username. -/
theorem profileKey_inj {a b : String} (h : profileKey a = profileKey b) : a = b := by
  rw [profileKey, profileKey] at h
  have h2 := congrArg String.data h
  simp only [String.data_append] at h2
  have h3 := List.append_cancel_left h2
  cases a
  cases b
  simp_all

/-- On a cache miss, `scrapeUserProfile` produces exactly the record of
`profileResultSpec` and writes the cache only on success. -/
theorem scrape_miss (enhance : UserRec → String → UserRec)
    (outcome : String → ProfOutcome) (cache : ProfCache) (u : UserRec)
    (h : cache.lookup (profileKey u.username) = none) :
    scrapeUserProfile enhance outcome cache u =
      (profileResultSpec enhance outcome u,
       match outcome u.username with
       | .ok doc => some (profileKey u.username, enhance u doc)
       | _ => none) := by
  cases hout : outcome u.username <;>
    simp [scrapeUserProfile, profileResultSpec, h, hout]

/-- Every cache write of `scrapeUserProfile` is keyed by the candidate's
username. -/
theorem scrape_snd_key (enhance : UserRec → String → UserRec)
    (outcome : String → ProfOutcome) (cache : ProfCache) (u : UserRec)
    (k : String) (v : UserRec)
    (h : (scrapeUserProfile enhance outcome cache u).2 = some (k, v)) :
    k = profileKey u.username := by
  rcases hl : cache.lookup (profileKey u.username) with _ | w
  · cases hout : outcome u.username with
    | ok doc =>
      simp [scrapeUserProfile, hl, hout] at h
      exact h.1.symm
    | emptyDoc => simp [scrapeUserProfile, hl, hout] at h
    | err m => simp [scrapeUserProfile, hl, hout] at h
  · simp [scrapeUserProfile, hl] at h

/-- The batching loop returns exactly one record per input candidate. -/
theorem PB_length (enhance : UserRec → String → UserRec)
    (outcome : String → ProfOutcome) (B delay : Nat) (hB : 0 < B)
    (cache : ProfCache) (users : List UserRec) :
    (processUserProfilesInBatches enhance outcome B delay hB cache users).1.length =
      users.length := by
  by_cases hu : users.isEmpty = true
  · have h0 : users = [] := List.isEmpty_iff.mp hu
    subst h0
    rw [PB_nil]
  · have hu' : users.isEmpty = false := by simpa using hu
    by_cases hr : (users.drop B).isEmpty = true
    · rw [PB_last enhance outcome B delay hB cache users hu' hr]
      have h2 : users.drop B = [] := List.isEmpty_iff.mp hr
      have h3 : users.length - B = 0 := by
        have h4 := congrArg List.length h2
        simpa [List.length_drop] using h4
      simp only [List.length_map, List.length_take]
      omega
    · have hr' : (users.drop B).isEmpty = false := by simpa using hr
      have ih := PB_length enhance outcome B delay hB
        (((users.take B).map (scrapeUserProfile enhance outcome cache)).filterMap Prod.snd ++ cache)
        (users.drop B)
      rw [PB_cons enhance outcome B delay hB cache users hu' hr']
      simp only [List.length_append, List.length_map, List.length_take, ih, List.length_drop]
      have h1 : users.length ≠ 0 := by
        simpa [List.isEmpty_iff_length_eq_zero] using hu'
      omega
termination_by users.length
decreasing_by
  have h1 : users.length ≠ 0 := by
    simpa [List.isEmpty_iff_length_eq_zero] using hu'
  simp only [List.length_drop]
  omega

/-- With a cache that misses every candidate and pairwise distinct
usernames, the batching loop maps every candidate to the record described
by `profileResultSpec` — in particular a candidate whose fetch fails maps
to its own fields with the error marker in `raw_data`. -/
theorem PB_spec_aux (enhance : UserRec → String → UserRec)
    (outcome : String → ProfOutcome) (B delay : Nat) (hB : 0 < B)
    (users : List UserRec) :
    ∀ cache : ProfCache,
      (∀ u ∈ users, cache.lookup (profileKey u.username) = none) →
      (users.map (fun u => u.username)).Nodup →
      (processUserProfilesInBatches enhance outcome B delay hB cache users).1 =
        users.map (profileResultSpec enhance outcome) := by
  intro cache hmiss hnd
  by_cases hu : users.isEmpty = true
  · have h0 : users = [] := List.isEmpty_iff.mp hu
    subst h0
    rw [PB_nil]
    rfl
  · have hu' : users.isEmpty = false := by simpa using hu
    have hfst : ∀ u ∈ users.take B,
        (scrapeUserProfile enhance outcome cache u).1 =
          profileResultSpec enhance outcome u := by
      intro u hu2
      rw [scrape_miss enhance outcome cache u (hmiss u (List.take_subset B users hu2))]
    by_cases hr : (users.drop B).isEmpty = true
    · rw [PB_last enhance outcome B delay hB cache users hu' hr]
      have h2 : users.drop B = [] := List.isEmpty_iff.mp hr
      have h3 : users.take B = users := by
        have h4 := List.take_append_drop B users
        rw [h2, List.append_nil] at h4
        exact h4
      rw [List.map_map, h3]
      exact List.map_congr_left fun u hu2 => hfst u (by rw [h3]; exact hu2)
    · have hr' : (users.drop B).isEmpty = false := by simpa using hr
      have hnd2 : ((users.take B).map (fun u => u.username) ++
          (users.drop B).map (fun u => u.username)).Nodup := by
        rw [← List.map_append, List.take_append_drop]
        exact hnd
      have hdisj := List.disjoint_of_nodup_append hnd2
      have hmiss' : ∀ v ∈ users.drop B,
          ((((users.take B).map (scrapeUserProfile enhance outcome cache)).filterMap
            Prod.snd) ++ cache).lookup (profileKey v.username) = none := by
        intro v hv
        apply lookup_append_none
        · apply lookup_none_of_keys
          intro p hp
          obtain ⟨x, hx, hxp⟩ := List.mem_filterMap.mp hp
          obtain ⟨u, hu2, hux⟩ := List.mem_map.mp hx
          subst hux
          have hk := scrape_snd_key enhance outcome cache u p.1 p.2 (by rw [hxp])
          rw [hk]
          intro hcon
          have heq := profileKey_inj hcon
          exact hdisj (List.mem_map.mpr ⟨u, hu2, heq⟩)
            (List.mem_map.mpr ⟨v, hv, rfl⟩)
        · exact hmiss v (List.drop_subset B users hv)
      have hnd' : ((users.drop B).map (fun u => u.username)).Nodup :=
        hnd2.of_append_right
      have ih := PB_spec_aux enhance outcome B delay hB (users.drop B)
        (((users.take B).map (scrapeUserProfile enhance outcome cache)).filterMap
          Prod.snd ++ cache) hmiss' hnd'
      rw [PB_cons enhance outcome B delay hB cache users hu' hr', ih, List.map_map]
      have h5 : (users.take B).map (Prod.fst ∘ scrapeUserProfile enhance outcome cache) =
          (users.take B).map (profileResultSpec enhance outcome) :=
        List.map_congr_left fun u hu2 => hfst u hu2
      rw [h5, ← List.map_append, List.take_append_drop]
termination_by users.length
decreasing_by
  have h1 : users.length ≠ 0 := by
    simpa [List.isEmpty_iff_length_eq_zero] using hu'
  simp only [List.length_drop]
  omega

/-- C3: the batching loop returns exactly one record per input candidate
(never a dropped or missing record, whatever the cache state and
outcomes), and — starting from a fresh cache, with distinct usernames —
every candidate whose profile fetch fails with a transport error yields a
record consisting of that candidate's fields with the error marker
`{error: message}` in place of the raw profile data. -/
theorem batching_error_records (enhance : UserRec → String → UserRec)
    (outcome : String → ProfOutcome) (B delay : Nat) (hB : 0 < B)
    (cache : ProfCache) (users : List UserRec) :
    (processUserProfilesInBatches enhance outcome B delay hB cache users).1.length =
      users.length ∧
    ((users.map (fun u => u.username)).Nodup →
      (processUserProfilesInBatches enhance outcome B delay hB [] users).1 =
        users.map (profileResultSpec enhance outcome) ∧
      ∀ i : Nat, ∀ hi : i < users.length, ∀ m : String,
        outcome (users[i].username) = .err m →
        (processUserProfilesInBatches enhance outcome B delay hB [] users).1[i]? =
          some { users[i] with raw_data := .fetchError m }) := by
  refine ⟨PB_length enhance outcome B delay hB cache users, fun hnd => ⟨?_, ?_⟩⟩
  · exact PB_spec_aux enhance outcome B delay hB users [] (fun u _ => rfl) hnd
  · intro i hi m hout
    have h9 : profileResultSpec enhance outcome users[i] =
        { users[i] with raw_data := .fetchError m } := by
      rw [profileResultSpec.eq_def, hout]
    rw [PB_spec_aux enhance outcome B delay hB users [] (fun u _ => rfl) hnd,
      List.getElem?_map, List.getElem?_eq_getElem hi]
    show some (profileResultSpec enhance outcome users[i]) =
      some { users[i] with raw_data := .fetchError m }
    rw [h9]

/-- Witness for C3: two candidates, the second one's profile fetch failing
with a transport error; the output has one record per candidate and the
second record is the candidate's fields with the error marker. -/
theorem batching_error_records_witness :
    (0 < 3) ∧
    ([mkCand "a", mkCand "b"].map (fun u => u.username)).Nodup ∧
    (processUserProfilesInBatches (fun u _ => u)
      (fun n => if n = "b" then ProfOutcome.err "socket hang up" else .ok "d") 3 3000
      (by decide) [] [mkCand "a", mkCand "b"]).1.length = 2 ∧
    (processUserProfilesInBatches (fun u _ => u)
      (fun n => if n = "b" then ProfOutcome.err "socket hang up" else .ok "d") 3 3000
      (by decide) [] [mkCand "a", mkCand "b"]).1[1]? =
      some { mkCand "b" with raw_data := .fetchError "socket hang up" } := by
  refine ⟨by decide, by decide, ?_, ?_⟩
  · exact (batching_error_records (fun u _ => u)
      (fun n => if n = "b" then ProfOutcome.err "socket hang up" else .ok "d") 3 3000
      (by decide) [] [mkCand "a", mkCand "b"]).1
  · exact ((batching_error_records (fun u _ => u)
      (fun n => if n = "b" then ProfOutcome.err "socket hang up" else .ok "d") 3 3000
      (by decide) [] [mkCand "a", mkCand "b"]).2 (by decide)).2 1 (by decide)
      "socket hang up" rfl

/-! ### Search fan-out and input validation (claims C7, C9) -/

/-- On the happy path (valid query, connectivity, at least one candidate),
`searchUsers` hands the fan-out result to the profile batching stage and
returns its records. -/
theorem searchUsers_proceeds (env : ScrapeEnv) (sc : SearchCache) (pc : ProfCache)
    (s : String) (pages : Nat)
    (hv : validQuery (.str s) = true) (hc : env.conn = true)
    (hne : (fetchAllUsers env sc s pages).1.isEmpty = false) :
    searchUsers env sc pc (.str s) pages =
      ((processUserProfilesInBatches env.enhance env.profileOutcome batchSize
          scraperRateLimitDelay (by decide) pc (fetchAllUsers env sc s pages).1).1,
       .connTest :: (fetchAllUsers env sc s pages).2 ++
        (processUserProfilesInBatches env.enhance env.profileOutcome batchSize
          scraperRateLimitDelay (by decide) pc (fetchAllUsers env sc s pages).1).2.2) := by
  rw [searchUsers]
  simp [hv, hc, hne]

/-- C7: a transport failure of one search page contributes an empty
candidate list for that page while the other pages are unaffected (the
result is the page-order concatenation of the per-page lists); in the
concrete scenario — query `rust developer`, two pages, page 1 failing and
page 2 yielding three candidates — the pipeline yields exactly those three
candidates and proceeds to profile batching without aborting. -/
theorem pageFailure_isolation (env : ScrapeEnv) (sc : SearchCache) (q : String)
    (pages : Nat) :
    (fetchAllUsers env sc q pages).1 =
      ((List.range' 1 pages).map fun p => (scrapeUsersPage env sc q p).1).flatten ∧
    (∀ p m, sc.lookup (searchKey q p) = none → env.fetchPage p = .err m →
      (scrapeUsersPage env sc q p).1 = []) ∧
    (fetchAllUsers envScenario [] "rust developer" 2).1 =
      [mkCand "alice", mkCand "bob", mkCand "carol"] ∧
    (searchUsers envScenario [] [] (.str "rust developer") 2).1 =
      [mkCand "alice", mkCand "bob", mkCand "carol"] ∧
    (searchUsers envScenario [] [] (.str "rust developer") 2).2 =
      [.connTest, .searchPage 1, .searchPage 2, .sleep 3000,
       .scrapeCall "alice", .scrapeCall "bob", .scrapeCall "carol"] := by
  have hr : fetchAllUsers envScenario [] "rust developer" 2 =
      ([mkCand "alice", mkCand "bob", mkCand "carol"],
       [.searchPage 1, .searchPage 2, .sleep 3000]) := by decide
  have hPB := PB_last envScenario.enhance envScenario.profileOutcome batchSize
    scraperRateLimitDelay (by decide) []
    [mkCand "alice", mkCand "bob", mkCand "carol"] (by decide) (by decide)
  have hS := searchUsers_proceeds envScenario [] [] "rust developer" 2
    (by decide) rfl (by rw [hr]; rfl)
  refine ⟨?_, ?_, by rw [hr], ?_, ?_⟩
  · simp only [fetchAllUsers, List.map_map]
    rfl
  · intro p m h1 h2
    simp [scrapeUsersPage, h1, h2]
  · rw [hS]
    simp only [hr]
    rw [hPB]
    decide
  · rw [hS]
    simp only [hr]
    rw [hPB]
    decide

/-- Witness for C7: a concrete cache miss plus transport error on a page
yields the empty candidate list for that page. -/
theorem pageFailure_isolation_witness :
    ([] : SearchCache).lookup (searchKey "rust developer" 1) = none ∧
    envScenario.fetchPage 1 = .err "socket hang up" ∧
    (scrapeUsersPage envScenario [] "rust developer" 1).1 = [] := by
  refine ⟨rfl, rfl, ?_⟩
  exact (pageFailure_isolation envScenario [] "rust developer" 2).2.1 1
    "socket hang up" rfl rfl

/-- C9 (amended): for every empty or invalid query (empty string,
whitespace-only, or any non-string value), `searchUsers` returns the empty
result list with an empty event trace — no fetch, not even the
connectivity probe, is issued.  (No distinguished validation failure
reaches the caller: the value returned is the plain empty list.) -/
theorem invalidQuery_noNetwork (env : ScrapeEnv) (sc : SearchCache) (pc : ProfCache)
    (q : JsVal) (pages : Nat) (h : validQuery q = false) :
    searchUsers env sc pc q pages = ([], []) := by
  rw [searchUsers.eq_def]
  simp [h]

/-- Witness for C9's amended theorem at a whitespace query. -/
theorem invalidQuery_noNetwork_witness :
    validQuery (.str " ") = false ∧
    searchUsers envScenario [] [] (.str " ") 4 = ([], []) :=
  ⟨by decide, invalidQuery_noNetwork envScenario [] [] (.str " ") 4 (by decide)⟩

/-- C9 counterexample (to the claim as stated): the pipeline does not
report a validation failure to the caller — for the empty, whitespace-only
and non-string queries it returns the plain empty list (with no network
event), which is the same caller-visible value a successful search with
zero results produces; only a console log distinguishes them. -/
theorem invalidQuery_report_cex :
    searchUsers envScenario [] [] (.str "") 2 = ([], []) ∧
    searchUsers envScenario [] [] (.str "   ") 2 = ([], []) ∧
    searchUsers envScenario [] [] .nonString 2 = ([], []) ∧
    (searchUsers envNoResults [] [] (.str "rust developer") 3).1 = [] := by
  refine ⟨by decide, by decide, by decide, by decide⟩
